import Mathlib

/-
Verification of the generic Model layer of the graphql-redis repository
(src/src/models/index.js) against its natural-language specification.

The Model class maps documents (field-name/value records) onto a key-value
store:
  pfx:values:<id>            hash storing the document,
  pfx:keys                   sorted set of ids scored by save time,
  pfx:index                  sorted set of indexed field values,
  pfx:unique:<field>:<value> string key naming the owning id,
where pfx = databaseName ++ ":" ++ collectionName.

Shallow embedding conventions:
  - JavaScript values reaching the model layer are embedded as Val
    (null and undefined are conflated into Val.vnull; no claim depends
    on distinguishing them).
  - Documents and the store's keyspaces are association lists keyed by
    strings; alSet updates in place or appends, matching object/hash
    field update semantics.
  - bcrypt.hashSync / bcrypt.compareSync are embedded as an abstract
    Crypto record (hash, verify); hashSync's salt is internal to bcrypt,
    so a deterministic hash function stands for it.  bcrypt.compareSync
    throws on non-string arguments; it is embedded as false there - every
    claim exercises only string arguments.
  - isEmail is a fixed regular expression in the source; it is embedded
    as a Ctx parameter because no claim depends on the grammar itself.
  - The beforeCreate/beforeSave hook points (identity in the base class,
    overridable in subclasses) are Ctx parameters defaulting to success.
  - Redis command pipelines are embedded as explicit Op lists produced by
    save/delete; applyOps executes them against the Store.  Reads cannot
    fail in the pure store; the code paths that catch read errors
    (save's get of the original, delete's get) behave on a caught error
    exactly as on a null result, which the embedding reflects.
-/

namespace GraphQLRedis

/-- JavaScript values handled by the model layer. -/
inductive Val where
  | vnull
  | vbool (b : Bool)
  | vint (n : Int)
  | vstr (s : String)
deriving DecidableEq, Repr

/-- JavaScript truthiness. -/
def Val.truthy : Val → Bool
  | .vnull => false
  | .vbool b => b
  | .vint n => n != 0
  | .vstr s => s != ""

/-- typeof v === 'boolean'. -/
def Val.isBool : Val → Bool
  | .vbool _ => true
  | _ => false

/-- lodash toString as used by toLower: undefined/null become "". -/
def lodashToString : Val → String
  | .vnull => ""
  | .vbool b => if b then "true" else "false"
  | .vint n => toString n
  | .vstr s => s

/-- Lowercase a string (structural form of String.toLower). -/
def strLower (s : String) : String := String.mk (s.data.map Char.toLower)

/-- lodash toLower: coerce to string, lowercase. -/
def Val.toLowerJS (v : Val) : Val := .vstr (strLower (lodashToString v))

/-- Template-literal stringification (used when a value is spliced into a
key): undefined renders as "undefined". -/
def tplToString : Val → String
  | .vnull => "undefined"
  | .vbool b => if b then "true" else "false"
  | .vint n => toString n
  | .vstr s => s

/-- Numeric reading of a sorted-set score; the pfx:keys scores written by
save are always epoch integers. -/
def valNum : Val → Int
  | .vint n => n
  | _ => 0

/-- s.length < n for JS values: only strings have a length; comparisons
against undefined are false. -/
def lenLt (v : Val) (n : Nat) : Bool :=
  match v with
  | .vstr s => s.length < n
  | _ => false

/-- s.length >= n for JS values; false for non-strings. -/
def lenGe (v : Val) (n : Nat) : Bool :=
  match v with
  | .vstr s => n ≤ s.length
  | _ => false

/-- A document: association list from field name to value. -/
abbrev Doc := List (String × Val)

/-- Association-list lookup. -/
def alGet {α : Type} : List (String × α) → String → Option α
  | [], _ => none
  | p :: rest, k => if p.1 = k then some p.2 else alGet rest k

/-- Association-list update: replace in place, or append. -/
def alSet {α : Type} : List (String × α) → String → α → List (String × α)
  | [], k, v => [(k, v)]
  | p :: rest, k, v => if p.1 = k then (k, v) :: rest else p :: alSet rest k v

/-- Association-list removal. -/
def alRemove {α : Type} : List (String × α) → String → List (String × α)
  | [], _ => []
  | p :: rest, k => if p.1 = k then alRemove rest k else p :: alRemove rest k

/-- lodash get of a field: undefined when absent. -/
def getv (d : Doc) (k : String) : Val := (alGet d k).getD .vnull

/-- Per-field schema settings (the field objects read by the Model class). -/
structure FieldSettings where
  primary : Bool := false
  index : Bool := false
  unique : Bool := false
  autoId : Bool := false
  required : Bool := false
  email : Bool := false
  password : Bool := false
  lowercase : Bool := false
  minLength : Nat := 0
  defaultValue : Option Val := none
deriving Repr

/-- bcrypt, abstracted: hashSync and compareSync. -/
structure Crypto where
  hash : String → String
  verify : String → String → Bool

/-- bcrypt.compareSync on JS values (claims only exercise string
arguments; the library throws on others, embedded as false). -/
def bcCompare (cr : Crypto) (v h : Val) : Bool :=
  match v, h with
  | .vstr s, .vstr t => cr.verify s t
  | _, _ => false

/-- bcrypt.hashSync on the values that reach it (always strings, because
lenGe is false for non-strings). -/
def hashVal (cr : Crypto) (v : Val) : Val :=
  match v with
  | .vstr s => .vstr (cr.hash s)
  | _ => v

/-- A concrete Model instance: database and collection names, field
schema, and the overridable collaborators. -/
structure Ctx where
  dbname : String
  collection : String
  fields : List (String × FieldSettings)
  crypto : Crypto
  emailOk : Val → Bool
  hookCreate : Doc → Except String Doc := fun d => Except.ok d
  hookSave : Doc → Except String Doc := fun d => Except.ok d

/-- Key pfx: databaseName:collection. -/
def Ctx.pfx (C : Ctx) : String := C.dbname ++ ":" ++ C.collection

/-- Key of the value hash of a document. -/
def valuesKey (C : Ctx) (id : String) : String := C.pfx ++ ":values:" ++ id

/-- Key of a unique reverse-index entry. -/
def uniqueKey (C : Ctx) (name : String) (v : Val) : String :=
  C.pfx ++ ":unique:" ++ name ++ ":" ++ tplToString v

/-- Key of the secondary index sorted set written by save. -/
def indexKey (C : Ctx) : String := C.pfx ++ ":index"

/-- Key of the membership sorted set. -/
def keysKey (C : Ctx) : String := C.pfx ++ ":keys"

/-- The key-value store: string keys, hash keys, sorted-set keys.
Sorted sets are member/score association lists; ordering is imposed at
query time. -/
structure Store where
  strs : List (String × String) := []
  hashes : List (String × Doc) := []
  zsets : List (String × List (String × Val)) := []
deriving Repr

/-- The empty store. -/
def Store.empty : Store := {}

/-- GET of a string key. -/
def stGetStr (st : Store) (k : String) : Option String := alGet st.strs k

/-- HGETALL: a missing key yields the empty hash. -/
def stGetHash (st : Store) (k : String) : Doc := (alGet st.hashes k).getD []

/-- Sorted-set lookup: a missing key yields the empty set. -/
def stGetZ (st : Store) (k : String) : List (String × Val) :=
  (alGet st.zsets k).getD []

/-- One pipelined store command, as issued by save/delete. -/
inductive Op where
  | set (key value : String)
  | del (key : String)
  | hmset (key : String) (doc : Doc)
  | zadd (key : String) (score : Val) (member : String)
  | zrem (key member : String)
deriving DecidableEq, Repr

/-- HMSET merges the given fields into the existing hash. -/
def docMerge (older newer : Doc) : Doc :=
  newer.foldl (fun acc kv => alSet acc kv.1 kv.2) older

/-- Execute one command against the store. -/
def applyOp (st : Store) : Op → Store
  | .set k v => { st with strs := alSet st.strs k v }
  | .del k =>
      { st with strs := alRemove st.strs k, hashes := alRemove st.hashes k,
                zsets := alRemove st.zsets k }
  | .hmset k d =>
      { st with hashes := alSet st.hashes k (docMerge (stGetHash st k) d) }
  | .zadd k s m => { st with zsets := alSet st.zsets k (alSet (stGetZ st k) m s) }
  | .zrem k m => { st with zsets := alSet st.zsets k (alRemove (stGetZ st k) m) }

/-- Execute a pipeline. -/
def applyOps (st : Store) (ops : List Op) : Store := ops.foldl applyOp st

/-- Error message of the create-time password length check
(index.js line 236). -/
def minLenMsg (name : String) (n : Nat) : String :=
  name ++ " must greater than " ++ toString n ++ " characters."

/-- Error message of the required check (line 244). -/
def requiredMsg (name : String) : String := name ++ " is required"

/-- Error message of the email check (line 251). -/
def emailMsg (name : String) : String := name ++ " must email valid"

/-- Error message of a uniqueness conflict (line 298). -/
def uniqueMsg (name : String) : String := name ++ " is already exist."

/-- get(id), index.js lines 315-323: HGETALL the value hash; a result
whose id field is falsy (missing hash included) resolves null. -/
def getDoc (C : Ctx) (st : Store) (id : String) : Option Doc :=
  let r := stGetHash st (valuesKey C id)
  if (getv r "id").truthy then some r else none

/-- The raw field value before transforms: lodash get of the candidate
document with the schema's defaultValue as fallback (line 221). -/
def fieldVal0 (model : Doc) (fs : FieldSettings) (name : String) : Val :=
  match alGet model name with
  | some v => v
  | none => fs.defaultValue.getD Val.vnull

/-- The field value after the lowercase transform (lines 229-231). -/
def fieldVal1 (model : Doc) (fs : FieldSettings) (name : String) : Val :=
  if fs.lowercase then (fieldVal0 model fs name).toLowerJS else fieldVal0 model fs name

/-- Accumulator of validate's per-field scan (lines 218-256): the data
document under construction, the error messages, and the collected
password and unique fields. -/
structure ScanSt where
  data : Doc := []
  errs : List String := []
  pw : List (String × Val) := []
  uniq : List (String × Val) := []

/-- One iteration of validate's per-field scan, transcribing lines
218-256 of index.js in order: lowercase, password collection, create-time
password length error, hashing, data write, required check, autoId unset,
email check, unique collection. -/
def scanField (C : Ctx) (id : Option String) (model : Doc) (s : ScanSt)
    (name : String) (fs : FieldSettings) : ScanSt :=
  let v1 := fieldVal1 model fs name
  let pw1 := if fs.password then s.pw ++ [(name, v1)] else s.pw
  let e1 := if fs.password && id.isNone && (!v1.truthy || lenLt v1 fs.minLength)
            then [minLenMsg name fs.minLength] else []
  let v2 := if fs.password && v1.truthy && lenGe v1 fs.minLength
            then hashVal C.crypto v1 else v1
  let data1 := alSet s.data name v2
  let e2 := if !fs.password && id.isNone && fs.required && !v2.isBool && !v2.truthy
            then [requiredMsg name] else []
  let data2 := if id.isNone && fs.autoId then alRemove data1 name else data1
  let e3 := if fs.email && v2.truthy && !(C.emailOk v2) then [emailMsg name] else []
  let uniq1 := if fs.unique then s.uniq ++ [(name, v2)] else s.uniq
  { data := data2, errs := s.errs ++ e1 ++ e2 ++ e3, pw := pw1, uniq := uniq1 }

/-- validate's full per-field scan over the declared schema. -/
def scanFields (C : Ctx) (id : Option String) (model : Doc) : ScanSt :=
  C.fields.foldl (fun s p => scanField C id model s p.1 p.2) {}

/-- The update-time password keep rule (lines 258-267): for each password
field, if the new value is falsy, strictly equal to the stored value, or
verifies against it, the stored value is written back into the data. -/
def applyPwKeep (cr : Crypto) (original : Option Doc) (pw : List (String × Val))
    (data : Doc) : Doc :=
  pw.foldl
    (fun d f =>
      let originPassword := getv (original.getD []) f.1
      if !f.2.truthy || f.2 == originPassword || bcCompare cr f.2 originPassword
      then alSet d f.1 originPassword else d)
    data

/-- The uniqueness cross-check (lines 274-302): GET each unique key; a
conflict is recorded when the stored owner is truthy and differs from the
current id (null id always differs). -/
def uniqueConflicts (C : Ctx) (id : Option String) (st : Store)
    (uniq : List (String × Val)) : List String :=
  uniq.foldl
    (fun acc f =>
      match stGetStr st (uniqueKey C f.1 f.2) with
      | some owner => if owner ≠ "" ∧ id ≠ some owner then acc ++ [uniqueMsg f.1] else acc
      | none => acc)
    []

/-- validate(id, model), index.js lines 208-308. -/
def validate (C : Ctx) (id : Option String) (model : Doc) (st : Store) :
    Except (List String) Doc :=
  let s := scanFields C id model
  let data :=
    match id with
    | some i => if s.pw ≠ [] then applyPwKeep C.crypto (getDoc C st i) s.pw s.data else s.data
    | none => s.data
  if s.errs ≠ [] then Except.error s.errs
  else
    let conf := uniqueConflicts C id st s.uniq
    if conf ≠ [] then Except.error conf else Except.ok data

/-- The rejection values of save. -/
inductive SaveErr where
  | notFound
  | validation (msgs : List String)
  | hook (msg : String)
deriving DecidableEq, Repr

/-- The hook point invoked by save (line 117): beforeSave on update,
beforeCreate on create. -/
def hookOf (C : Ctx) (id : Option String) (m : Doc) : Except String Doc :=
  match id with
  | some _ => C.hookSave m
  | none => C.hookCreate m

/-- The write pipeline built by save (lines 164-194): unique-key
maintenance, index maintenance, the value-hash write, and the membership
zadd.  Indexed/unique values are read from the validated document before
the id is assigned (lines 125-136 precede line 162), so the hmset'd
document carries the id but the index snapshot does not. -/
def buildSaveOps (C : Ctx) (original : Option Doc) (m2 : Doc) (theId : String)
    (now : Int) : List Op :=
  let idxF := C.fields.filterMap
    (fun p => if p.2.index then some (p.1, getv m2 p.1) else none)
  let uniqF := C.fields.filterMap
    (fun p => if p.2.unique then some (p.1, getv m2 p.1) else none)
  let uniqOps := uniqF.foldl
    (fun acc f =>
      acc ++
        (match original with
         | some om => [Op.del (uniqueKey C f.1 (getv om f.1))]
         | none => []) ++
        (if f.2.truthy then [Op.set (uniqueKey C f.1 f.2) theId] else []))
    []
  let idxOps := idxF.foldl
    (fun acc f =>
      acc ++
        (match original with
         | some om => [Op.zrem (indexKey C) (tplToString (getv om f.1))]
         | none => []) ++
        (if f.2.truthy then [Op.zadd (indexKey C) (Val.vstr f.1) (tplToString f.2)] else []))
    []
  uniqOps ++ idxOps ++
    [Op.hmset (valuesKey C theId) (alSet m2 "id" (Val.vstr theId)),
     Op.zadd (keysKey C) (Val.vint now) theId]

/-- save(id, model), index.js lines 84-200, returning the resolution and
the pipeline of writes actually executed (empty on every rejection path,
since the promise rejects before queueing and exec is never reached).
newId stands for autoId(), now for moment().unix().  A get failure on the
original is caught (line 91) and leaves originalModel null, which the
pure getDoc reflects.  The "Model not found" check precedes the
validation and hook rejections (lines 145-157). -/
def save (C : Ctx) (id : Option String) (model : Doc) (st : Store)
    (newId : String) (now : Int) : Except SaveErr Doc × List Op :=
  let original := id.bind (fun i => getDoc C st i)
  let nf := id.isSome && original.isNone
  match validate C id model st with
  | Except.error e =>
      (Except.error (if nf then SaveErr.notFound else SaveErr.validation e), [])
  | Except.ok m1 =>
      match hookOf C id m1 with
      | Except.error h =>
          (Except.error (if nf then SaveErr.notFound else SaveErr.hook h), [])
      | Except.ok m2 =>
          if nf then (Except.error SaveErr.notFound, [])
          else
            let theId := id.getD newId
            (Except.ok (alSet m2 "id" (Val.vstr theId)),
             buildSaveOps C original m2 theId now)

/-- The batch built by delete (lines 436-445).  Note the index removal
targets the key pfx:index: with a trailing colon, transcribed verbatim
from line 437. -/
def deleteOps (C : Ctx) (m : Doc) (id : String) : List Op :=
  let idxF := C.fields.filterMap
    (fun p => if p.2.index && (getv m p.1).truthy then some (p.1, getv m p.1) else none)
  let uniqF := C.fields.filterMap
    (fun p => if p.2.unique && (getv m p.1).truthy then some (p.1, getv m p.1) else none)
  (idxF.map (fun f => Op.zrem (C.pfx ++ ":index:") (tplToString f.2))) ++
  (uniqF.map (fun f => Op.del (uniqueKey C f.1 f.2))) ++
  [Op.zrem (keysKey C) id, Op.del (valuesKey C id)]

/-- delete(id), index.js lines 397-451: fetch the document (a get error
is caught and treated as absence); reject "Not found" when absent, else
return the batch of writes. -/
def deleteDoc (C : Ctx) (st : Store) (id : String) : Except String (List Op) :=
  match getDoc C st id with
  | none => Except.error "Not found"
  | some m => Except.ok (deleteOps C m id)

/-- find's filter with the source defaults (lines 333-334). -/
structure Filter where
  limit : Nat := 50
  skip : Nat := 0

/-- Descending comparison used by ZREVRANGEBYSCORE: higher score first,
ties broken by reverse lexicographic member order. -/
def revBefore (a b : String × Val) : Bool :=
  if valNum a.2 = valNum b.2 then decide (b.1 < a.1) else decide (valNum b.2 < valNum a.2)

/-- Insertion step of the descending sort. -/
def zinsertDesc (a : String × Val) : List (String × Val) → List (String × Val)
  | [] => [a]
  | b :: rest => if revBefore a b then a :: b :: rest else b :: zinsertDesc a rest

/-- Sort a sorted-set's members descending by score. -/
def sortDesc (l : List (String × Val)) : List (String × Val) := l.foldr zinsertDesc []

/-- ZREVRANGEBYSCORE key +inf -inf LIMIT skip limit (line 339). -/
def zrevrangeAll (entries : List (String × Val)) (sk lim : Nat) : List String :=
  (((sortDesc entries).map Prod.fst).drop sk).take lim

/-- The collection step of find's fetch pipeline (lines 360-365): each
result is an error/value pair; values whose error slot is null are kept,
the others are silently dropped. -/
def collectModels (rs : List (Option String × Doc)) : List Doc :=
  rs.foldl
    (fun acc r => match r.1 with | none => acc ++ [r.2] | some _ => acc)
    []

/-- find(filter), index.js lines 330-375: window the membership set in
descending score order, fetch each value hash (never failing in the pure
store), collect. -/
def find (C : Ctx) (st : Store) (f : Filter) : List Doc :=
  let ids := zrevrangeAll (stGetZ st (keysKey C)) f.skip f.limit
  collectModels (ids.map (fun k => (none, stGetHash st (valuesKey C k))))

/-! Concrete instances used by the theorems below. -/

/-- A concrete Crypto instance for evaluation: an injective tagging hash
with its matching verifier. -/
def cryptoW : Crypto :=
  { hash := fun s => "H(" ++ s ++ ")", verify := fun s t => t == "H(" ++ s ++ ")" }

/-- A concrete model context over a given schema. -/
def mkCtx (fs : List (String × FieldSettings)) : Ctx :=
  { dbname := "db", collection := "c", fields := fs, crypto := cryptoW,
    emailOk := fun v => match v with | .vstr s => s.toList.contains '@' | _ => false }

/-- The field schema of the base Model class (index.js lines 650-659). -/
def baseFields : List (String × FieldSettings) :=
  [("id", { primary := true, index := true, autoId := true })]

/-- The base model context. -/
def cBase : Ctx := mkCtx baseFields

/-- A model with a single password field of minimum length 6, over an
arbitrary bcrypt implementation. -/
def cPwC (cr : Crypto) : Ctx :=
  { mkCtx [("password", { password := true, minLength := 6 })] with crypto := cr }

/-- A model with a single password field of minimum length 6. -/
def cPw : Ctx := cPwC cryptoW

/-- Store holding one persisted cPw document, id u1, with a properly
hashed password. -/
def c1st : Store :=
  { hashes := [(valuesKey cPw "u1",
      [("id", Val.vstr "u1"), ("password", Val.vstr (cryptoW.hash "secret1"))])] }

/-- A model with a single indexed field. -/
def cIdx : Ctx := mkCtx [("name", { index := true })]

/-- Store after creating a cIdx document {name: "alice"} with id id1. -/
def c2st1 : Store :=
  applyOps Store.empty (save cIdx none [("name", Val.vstr "alice")] Store.empty "id1" 5).2

/-- The batch delete(id1) builds over c2st1. -/
def c2delOps : List Op :=
  [Op.zrem "db:c:index:" "alice", Op.zrem "db:c:keys" "id1", Op.del "db:c:values:id1"]

/-- A model with a single email-validated field. -/
def cMail : Ctx := mkCtx [("mail", { email := true })]

/-- A model with a single unique field. -/
def cUniq : Ctx := mkCtx [("email", { unique := true })]

/-- A cBase-shaped model whose beforeCreate hook fails. -/
def cHookFail : Ctx := { mkCtx [] with hookCreate := fun _ => Except.error "boom" }

/-! Helper lemmas on association lists. -/

theorem alGet_alSet_self {α : Type} (l : List (String × α)) (k : String) (v : α) :
    alGet (alSet l k v) k = some v := by
  induction l with
  | nil => simp [alSet, alGet]
  | cons p rest ih =>
    by_cases h : p.1 = k
    · simp [alSet, alGet, h]
    · simp [alSet, alGet, h, ih]

theorem alGet_alSet_ne {α : Type} (l : List (String × α)) (k k' : String) (v : α)
    (h : k' ≠ k) : alGet (alSet l k' v) k = alGet l k := by
  induction l with
  | nil => simp [alSet, alGet, h]
  | cons p rest ih =>
    by_cases hp : p.1 = k'
    · simp [alSet, alGet, hp, h]
    · by_cases hk : p.1 = k
      · simp [alSet, alGet, hp, hk, Ne.symm h]
      · simp [alSet, alGet, hp, hk, ih]

/-! Claim theorems. -/

/-- C1: the claim says every persisted password field is stored hashed,
never as the caller-supplied plaintext, including updates whose new value
is non-empty, differs from the stored hash, and is shorter than the
field's minLength.  The code violates it on exactly that input: updating
u1's password to "abc" (length 3 < 6, not equal to the stored hash, not
verifying against it) skips the hashing branch and every keep-stored-hash
condition, so save resolves and persists the plaintext "abc" in the value
hash - which is neither the old hash nor a hash of "abc". -/
theorem c1_update_short_password_stored_plaintext :
    (save cPw (some "u1") [("password", Val.vstr "abc")] c1st "n" 7).1
        = Except.ok [("password", Val.vstr "abc"), ("id", Val.vstr "u1")] ∧
    getv (stGetHash (applyOps c1st
          (save cPw (some "u1") [("password", Val.vstr "abc")] c1st "n" 7).2)
        (valuesKey cPw "u1")) "password" = Val.vstr "abc" ∧
    getv (stGetHash c1st (valuesKey cPw "u1")) "password"
        = Val.vstr (cryptoW.hash "secret1") ∧
    cryptoW.verify "abc" (cryptoW.hash "secret1") = false ∧
    "abc" ≠ cryptoW.hash "secret1" ∧
    "abc".length < 6 ∧
    Val.vstr "abc" ≠ Val.vstr (cryptoW.hash "abc") :=
  ⟨rfl, rfl, rfl, rfl, by decide, by decide, by decide⟩

/-- C2: the claim says the batch built by delete removes the index
entries save wrote, so that none remains afterwards.  The code violates
it: save zadds the member to pfx:index while delete zrems it from
pfx:index: (trailing colon, line 437), so after a successful delete of
the document the index member written by save is still in the store. -/
theorem c2_index_entry_survives_delete :
    stGetZ c2st1 (indexKey cIdx) = [("alice", Val.vstr "name")] ∧
    deleteDoc cIdx c2st1 "id1" = Except.ok c2delOps ∧
    Op.zrem (indexKey cIdx ++ ":") "alice" ∈ c2delOps ∧
    Op.zrem (indexKey cIdx) "alice" ∉ c2delOps ∧
    getDoc cIdx (applyOps c2st1 c2delOps) "id1" = none ∧
    stGetZ (applyOps c2st1 c2delOps) (keysKey cIdx) = [] ∧
    stGetZ (applyOps c2st1 c2delOps) (indexKey cIdx) = [("alice", Val.vstr "name")] :=
  ⟨rfl, rfl, by decide, by decide, rfl, rfl, rfl⟩

/-- C3 counterexample: the claim says a failing validate makes save
reject with the validation error.  On an update whose id has no stored
document, validate fails (invalid email) yet save rejects with the
"Model not found" error instead, because the not-found check at line 145
precedes the validation rejection at line 151. -/
theorem c3_counterexample_notfound_preempts_validation :
    validate cMail (some "x") [("mail", Val.vstr "bad")] Store.empty
      = Except.error [emailMsg "mail"] ∧
    save cMail (some "x") [("mail", Val.vstr "bad")] Store.empty "n" 0
      = (Except.error SaveErr.notFound, []) ∧
    SaveErr.notFound ≠ SaveErr.validation [emailMsg "mail"] :=
  ⟨rfl, rfl, by decide⟩

/-- C3 (amended): if validate fails or the beforeCreate/beforeSave hook
fails, save rejects - with that error, except when the id is non-null and
no stored document exists, where the not-found rejection takes precedence
- and the write pipeline is never executed: no store write of any kind is
issued on these paths. -/
theorem c3_save_rejects_without_writes (C : Ctx) (id : Option String)
    (model : Doc) (st : Store) (nid : String) (now : Int) :
    (∀ msgs, validate C id model st = Except.error msgs →
        save C id model st nid now =
          (Except.error (if id.isSome && (id.bind (fun i => getDoc C st i)).isNone
                         then SaveErr.notFound else SaveErr.validation msgs), [])) ∧
    (∀ m h, validate C id model st = Except.ok m → hookOf C id m = Except.error h →
        save C id model st nid now =
          (Except.error (if id.isSome && (id.bind (fun i => getDoc C st i)).isNone
                         then SaveErr.notFound else SaveErr.hook h), [])) := by
  constructor
  · intro msgs hv
    simp only [save, hv]
  · intro m h hv hh
    simp only [save, hv, hh]

/-- C3 witness: the amended theorem applied at concrete inputs - an
invalid-email update on a missing id rejects not-found with no writes; a
failing beforeCreate hook on create rejects with the hook error and no
writes. -/
theorem c3_save_rejects_without_writes_witness :
    save cMail (some "x") [("mail", Val.vstr "bad")] Store.empty "n" 0
      = (Except.error SaveErr.notFound, []) ∧
    save cHookFail none [] Store.empty "n" 0
      = (Except.error (SaveErr.hook "boom"), []) := by
  constructor
  · exact (c3_save_rejects_without_writes cMail (some "x")
      [("mail", Val.vstr "bad")] Store.empty "n" 0).1 [emailMsg "mail"] rfl
  · exact (c3_save_rejects_without_writes cHookFail none [] Store.empty "n" 0).2
      [] "boom" rfl rfl

/-- Store holding one unique-key entry for cUniq's email field, as the
first create's pipeline wrote it. -/
def c4st : Store :=
  { strs := [(uniqueKey cUniq "email" (Val.vstr "a@b.co"), "owner1")] }

/-- C4: for a field marked unique with a set value, validate queries
pfx:unique:field:value and records a conflict exactly when the key exists
and its stored owner id (nonempty, as every owner save writes is a
document id) differs from the current document's id; and a create (null
id) colliding with an existing unique value makes save fail with the
conflict message naming the field. -/
theorem c4_unique_conflict_exactly_on_foreign_owner (C : Ctx) (id : Option String)
    (st : Store) (name : String) (v : Val)
    (howner : stGetStr st (uniqueKey C name v) ≠ some "") :
    (uniqueConflicts C id st [(name, v)] ≠ [] ↔
       ∃ owner, stGetStr st (uniqueKey C name v) = some owner ∧ id ≠ some owner) ∧
    (∀ (w owner : String) (st2 : Store) (nid : String) (now : Int),
        owner ≠ "" →
        stGetStr st2 (uniqueKey cUniq "email" (Val.vstr w)) = some owner →
        save cUniq none [("email", Val.vstr w)] st2 nid now
          = (Except.error (SaveErr.validation [uniqueMsg "email"]), [])) := by
  constructor
  · cases hx : stGetStr st (uniqueKey C name v) with
    | none => simp [uniqueConflicts, hx]
    | some owner =>
      have hne : owner ≠ "" := by
        intro he
        exact howner (by rw [hx, he])
      by_cases hid : id = some owner
      · simp [uniqueConflicts, hx, hne, hid]
      · simp [uniqueConflicts, hx, hne, hid]
  · intro w owner st2 nid now hown hkey
    have hval : validate cUniq none [("email", Val.vstr w)] st2
        = Except.error [uniqueMsg "email"] := by
      have hscan : scanFields cUniq none [("email", Val.vstr w)]
          = { data := [("email", Val.vstr w)], errs := [],
              pw := [], uniq := [("email", Val.vstr w)] } := rfl
      simp [validate, hscan, uniqueConflicts, hkey, hown]
    simp [save, hval]

/-- C4 witness: the theorem applied to the concrete store c4st holding
owner1 under the unique key for a\x40b.co - the conflict characterisation
holds there, and a second create with that email value rejects with the
conflict message. -/
theorem c4_unique_conflict_witness :
    ((uniqueConflicts cUniq none c4st [("email", Val.vstr "a@b.co")] ≠ [] ↔
       ∃ owner, stGetStr c4st (uniqueKey cUniq "email" (Val.vstr "a@b.co"))
           = some owner ∧ (none : Option String) ≠ some owner) ∧
     save cUniq none [("email", Val.vstr "a@b.co")] c4st "n2" 9
       = (Except.error (SaveErr.validation [uniqueMsg "email"]), [])) := by
  constructor
  · exact (c4_unique_conflict_exactly_on_foreign_owner cUniq none c4st "email"
      (Val.vstr "a@b.co") (by decide)).1
  · exact (c4_unique_conflict_exactly_on_foreign_owner cUniq none c4st "email"
      (Val.vstr "a@b.co") (by decide)).2 "a@b.co" "owner1" c4st "n2" 9
      (by decide) rfl

theorem cPwC_fields (cr : Crypto) :
    (cPwC cr).fields = [("password", { password := true, minLength := 6 })] := rfl

theorem cPwC_crypto (cr : Crypto) : (cPwC cr).crypto = cr := rfl

/-- C5: on update (id present) of a stored document with a password
field, a new password value that is empty, equal to the stored hash, or
verifying against the stored hash leaves the stored hash unchanged in the
validated document: no re-hash, no overwrite (equivalently, only a
non-matching new password can produce a different stored value). -/
theorem c5_update_password_kept_when_matching (cr : Crypto) (st : Store)
    (om : Doc) (i p h : String)
    (hget : getDoc (cPwC cr) st i = some om)
    (hpw : getv om "password" = Val.vstr h)
    (hmatch : p = "" ∨ p = h ∨ cr.verify p h = true) :
    validate (cPwC cr) (some i) [("password", Val.vstr p)] st
      = Except.ok [("password", Val.vstr h)] := by
  have hpw' : (alGet om "password").getD Val.vnull = Val.vstr h := hpw
  rcases hmatch with hp | hp | hp
  · subst hp
    simp [validate, scanFields, cPwC_fields, cPwC_crypto, scanField, fieldVal1,
          fieldVal0, applyPwKeep, alGet, alSet, Val.truthy, bcCompare, hget,
          hpw', getv, uniqueConflicts]
  · subst hp
    simp [validate, scanFields, cPwC_fields, cPwC_crypto, scanField, fieldVal1,
          fieldVal0, applyPwKeep, alGet, alSet, Val.truthy, bcCompare, hget,
          hpw', getv, uniqueConflicts]
  · simp [validate, scanFields, cPwC_fields, cPwC_crypto, scanField, fieldVal1,
          fieldVal0, applyPwKeep, alGet, alSet, Val.truthy, bcCompare, hget,
          hpw', hp, getv, uniqueConflicts]

/-- C5 witness: updating u1's stored password with the plaintext that
verifies against the stored hash, and with the empty string, both leave
the stored hash unchanged. -/
theorem c5_update_password_kept_witness :
    validate cPw (some "u1") [("password", Val.vstr "secret1")] c1st
      = Except.ok [("password", Val.vstr (cryptoW.hash "secret1"))] ∧
    validate cPw (some "u1") [("password", Val.vstr "")] c1st
      = Except.ok [("password", Val.vstr (cryptoW.hash "secret1"))] := by
  constructor
  · exact c5_update_password_kept_when_matching cryptoW c1st
      [("id", Val.vstr "u1"), ("password", Val.vstr (cryptoW.hash "secret1"))]
      "u1" "secret1" (cryptoW.hash "secret1") rfl rfl
      (Or.inr (Or.inr (by decide)))
  · exact c5_update_password_kept_when_matching cryptoW c1st
      [("id", Val.vstr "u1"), ("password", Val.vstr (cryptoW.hash "secret1"))]
      "u1" "" (cryptoW.hash "secret1") rfl rfl (Or.inl rfl)

/-- C7: save with a non-null id whose stored document is missing (get
resolves null; a get error is caught and leaves the same null) rejects
"Model not found" with no write issued; with a null id the not-found
rejection can never occur, and on success the generated id is assigned to
the document. -/
theorem c7_notfound_only_on_update (C : Ctx) (st : Store) (model : Doc)
    (nid : String) (now : Int) :
    (∀ i, getDoc C st i = none →
        save C (some i) model st nid now = (Except.error SaveErr.notFound, [])) ∧
    (save C none model st nid now).1 ≠ Except.error SaveErr.notFound ∧
    (∀ m, (save C none model st nid now).1 = Except.ok m →
        getv m "id" = Val.vstr nid) := by
  refine ⟨?_, ?_, ?_⟩
  · intro i hi
    cases hv : validate C (some i) model st with
    | error e => simp [save, hv, hi]
    | ok m1 =>
      cases hh : hookOf C (some i) m1 with
      | error h => simp [save, hv, hh, hi]
      | ok m2 => simp [save, hv, hh, hi]
  · cases hv : validate C none model st with
    | error e => simp [save, hv]
    | ok m1 =>
      cases hh : hookOf C none m1 with
      | error h => simp [save, hv, hh]
      | ok m2 => simp [save, hv, hh]
  · intro m hm
    cases hv : validate C none model st with
    | error e => simp [save, hv] at hm
    | ok m1 =>
      cases hh : hookOf C none m1 with
      | error h => simp [save, hv, hh] at hm
      | ok m2 =>
        simp [save, hv, hh] at hm
        subst hm
        simp [getv, alGet_alSet_self]

/-- C7 witness: updating a missing id rejects not-found without writes,
and a fresh create carries the generated id. -/
theorem c7_notfound_only_on_update_witness :
    save cBase (some "x") [] Store.empty "n" 0
      = (Except.error SaveErr.notFound, []) ∧
    getv [("id", Val.vstr "n")] "id" = Val.vstr "n" := by
  constructor
  · exact (c7_notfound_only_on_update cBase Store.empty [] "n" 0).1 "x" rfl
  · exact (c7_notfound_only_on_update cBase Store.empty [] "n" 0).2.2
      [("id", Val.vstr "n")] rfl

/-- Store holding, under x's value key, a hash whose id field is present
but maps to the empty string. -/
def c9st : Store := { hashes := [(valuesKey cBase "x", [("id", Val.vstr "")])] }

/-- C9 counterexample: the claim says get resolves the full hash whenever
the id field is present.  The code tests the field for truthiness, not
presence: a hash whose id field holds the empty string is resolved as
null. -/
theorem c9_counterexample_empty_id_field :
    alGet (stGetHash c9st (valuesKey cBase "x")) "id" = some (Val.vstr "") ∧
    getDoc cBase c9st "x" = none :=
  ⟨rfl, rfl⟩

/-- C9 (amended): get(id) resolves null rather than rejecting when the
fetched hash is empty, lacks an id field, or its id field holds the empty
string; it resolves the full hash when the id field is present with a
truthy (non-empty) value.  In the pure store rejection cannot occur; the
code rejects only when the store read itself errors. -/
theorem c9_get_null_semantics (C : Ctx) (st : Store) (i : String) :
    (∀ v, alGet (stGetHash st (valuesKey C i)) "id" = some v → v.truthy = true →
        getDoc C st i = some (stGetHash st (valuesKey C i))) ∧
    (alGet (stGetHash st (valuesKey C i)) "id" = none → getDoc C st i = none) ∧
    (alGet (stGetHash st (valuesKey C i)) "id" = some (Val.vstr "") →
        getDoc C st i = none) := by
  refine ⟨?_, ?_, ?_⟩
  · intro v hv ht
    simp [getDoc, getv, hv, ht]
  · intro hv
    simp [getDoc, getv, hv, Val.truthy]
  · intro hv
    simp [getDoc, getv, hv, Val.truthy]

/-- C9 witness: the amended theorem applied to a stored document (full
hash resolved) and to the empty store (null resolved). -/
theorem c9_get_null_semantics_witness :
    getDoc cPw c1st "u1"
      = some [("id", Val.vstr "u1"), ("password", Val.vstr (cryptoW.hash "secret1"))] ∧
    getDoc cBase Store.empty "nope" = none := by
  constructor
  · exact (c9_get_null_semantics cPw c1st "u1").1 (Val.vstr "u1") rfl rfl
  · exact (c9_get_null_semantics cBase Store.empty "nope").2.1 rfl

/-- A model with one required (non-password) field of the given name. -/
def cReq (name : String) : Ctx := mkCtx [(name, { required := true })]

theorem cReq_fields (name : String) :
    (cReq name).fields = [(name, { required := true })] := rfl

theorem cReq_hookCreate (name : String) (d : Doc) :
    (cReq name).hookCreate d = Except.ok d := rfl

/-- C10: a required field whose candidate value is the boolean false
passes the create-time required check (boolean-typed values are exempt
from the falsiness test), validates unchanged, and is persisted as false
in the value hash. -/
theorem c10_required_boolean_false_passes (name : String) (st : Store)
    (nid : String) (now : Int) (hne : name ≠ "id") :
    validate (cReq name) none [(name, Val.vbool false)] st
      = Except.ok [(name, Val.vbool false)] ∧
    (save (cReq name) none [(name, Val.vbool false)] st nid now).1
      = Except.ok [(name, Val.vbool false), ("id", Val.vstr nid)] ∧
    getv (stGetHash
        (applyOps st (save (cReq name) none [(name, Val.vbool false)] st nid now).2)
        (valuesKey (cReq name) nid)) name = Val.vbool false := by
  have hval : validate (cReq name) none [(name, Val.vbool false)] st
      = Except.ok [(name, Val.vbool false)] := by
    simp [validate, scanFields, cReq_fields, scanField, fieldVal1, fieldVal0,
          alGet, alSet, uniqueConflicts, Val.isBool]
  refine ⟨hval, ?_, ?_⟩
  · simp [save, hval, hookOf, cReq_hookCreate, alSet, hne]
  · simp [save, hval, hookOf, cReq_hookCreate, buildSaveOps, cReq_fields,
          applyOps, applyOp, stGetHash, stGetZ, docMerge, alSet, hne,
          getv, alGet_alSet_self, alGet_alSet_ne, Ne.symm hne]

/-- C10 witness: the theorem at the concrete field flag over the empty
store. -/
theorem c10_required_boolean_false_passes_witness :
    validate (cReq "flag") none [("flag", Val.vbool false)] Store.empty
      = Except.ok [("flag", Val.vbool false)] ∧
    (save (cReq "flag") none [("flag", Val.vbool false)] Store.empty "n7" 3).1
      = Except.ok [("flag", Val.vbool false), ("id", Val.vstr "n7")] ∧
    getv (stGetHash
        (applyOps Store.empty
          (save (cReq "flag") none [("flag", Val.vbool false)] Store.empty "n7" 3).2)
        (valuesKey (cReq "flag") "n7")) "flag" = Val.vbool false :=
  c10_required_boolean_false_passes "flag" Store.empty "n7" 3 (by decide)

/-- Store after creating one cBase document with id a at time t1. -/
def c6st1 (t1 : Int) : Store :=
  applyOps Store.empty (save cBase none [] Store.empty "a" t1).2

/-- Store after a second create, id b at time t2. -/
def c6st2 (t1 t2 : Int) : Store :=
  applyOps (c6st1 t1) (save cBase none [] (c6st1 t1) "b" t2).2

/-- Store after a third create, id c at time t3. -/
def c6store (t1 t2 t3 : Int) : Store :=
  applyOps (c6st2 t1 t2) (save cBase none [] (c6st2 t1 t2) "c" t3).2

theorem collectModels_go (rs : List (Option String × Doc)) :
    ∀ acc, rs.foldl (fun acc r => match r.1 with | none => acc ++ [r.2] | some _ => acc) acc
      = acc ++ rs.filterMap (fun r => match r.1 with | none => some r.2 | some _ => none) := by
  induction rs with
  | nil => intro acc; simp
  | cons r rest ih =>
    intro acc
    cases hr : r.1 with
    | none => simp [hr, ih]
    | some e => simp [hr, ih]

/-- C6: find reads ids from pfx:keys in descending score order within the
skip/limit window (structure Filter carries the source defaults limit 50,
skip 0, and an absent filter means exactly those defaults), fetches each
id's value hash, and keeps exactly the per-item results whose error slot
is null, silently dropping errored items; and since each save scores the
id with its save time, find with limit 1 and skip 0 after three creates
at increasing times returns exactly the document of the third, most
recent, save. -/
theorem c6_find_window_and_latest :
    (∀ rs : List (Option String × Doc),
        collectModels rs
          = rs.filterMap (fun r => match r.1 with | none => some r.2 | some _ => none)) ∧
    (∀ (C : Ctx) (st : Store), find C st {} = find C st { limit := 50, skip := 0 }) ∧
    (∀ t1 t2 t3 : Int, t1 < t2 → t2 < t3 →
        (save cBase none [] (c6st2 t1 t2) "c" t3).1 = Except.ok [("id", Val.vstr "c")] ∧
        find cBase (c6store t1 t2 t3) { limit := 1, skip := 0 }
          = [[("id", Val.vstr "c")]]) := by
  refine ⟨?_, ?_, ?_⟩
  · intro rs
    simpa [collectModels] using collectModels_go rs []
  · intro C st
    rfl
  · intro t1 t2 t3 h12 h23
    refine ⟨rfl, ?_⟩
    have hstore : c6store t1 t2 t3 =
        { strs := [],
          hashes := [(valuesKey cBase "a", [("id", Val.vstr "a")]),
                     (valuesKey cBase "b", [("id", Val.vstr "b")]),
                     (valuesKey cBase "c", [("id", Val.vstr "c")])],
          zsets := [(keysKey cBase,
            [("a", Val.vint t1), ("b", Val.vint t2), ("c", Val.vint t3)])] } := rfl
    have hne23 : ¬ (t2 = t3) := by omega
    have hnlt32 : ¬ (t3 < t2) := by omega
    have hne13 : ¬ (t1 = t3) := by omega
    have hnlt31 : ¬ (t3 < t1) := by omega
    have hne12 : ¬ (t1 = t2) := by omega
    have hnlt21 : ¬ (t2 < t1) := by omega
    have hsort : sortDesc [("a", Val.vint t1), ("b", Val.vint t2), ("c", Val.vint t3)]
        = [("c", Val.vint t3), ("b", Val.vint t2), ("a", Val.vint t1)] := by
      simp [sortDesc, zinsertDesc, revBefore, valNum, hne23, hnlt32, hne13,
            hnlt31, hne12, hnlt21]
    rw [hstore]
    simp [find, zrevrangeAll, stGetZ, stGetHash, keysKey, alGet, hsort,
          collectModels, valuesKey]
    decide

/-- C6 witness: the scenario at save times 1, 2, 3. -/
theorem c6_find_window_and_latest_witness :
    (save cBase none [] (c6st2 1 2) "c" 3).1 = Except.ok [("id", Val.vstr "c")] ∧
    find cBase (c6store 1 2 3) { limit := 1, skip := 0 } = [[("id", Val.vstr "c")]] :=
  c6_find_window_and_latest.2.2 1 2 3 (by decide) (by decide)

theorem scanField_errs_subset (C : Ctx) (id : Option String) (model : Doc)
    (s : ScanSt) (name : String) (fs : FieldSettings) (x : String)
    (hx : x ∈ s.errs) : x ∈ (scanField C id model s name fs).errs := by
  simp [scanField, hx]

theorem scanFold_errs_subset (C : Ctx) (id : Option String) (model : Doc) (x : String) :
    ∀ (l : List (String × FieldSettings)) (s : ScanSt), x ∈ s.errs →
      x ∈ (l.foldl (fun s p => scanField C id model s p.1 p.2) s).errs := by
  intro l
  induction l with
  | nil =>
    intro s hx
    simpa using hx
  | cons p rest ih =>
    intro s hx
    exact ih _ (scanField_errs_subset C id model s p.1 p.2 x hx)

theorem requiredMsg_mem_scan (C : Ctx) (model : Doc) (name : String)
    (fs : FieldSettings) (hp : fs.password = false) (hr : fs.required = true)
    (hb : (fieldVal1 model fs name).isBool = false)
    (ht : (fieldVal1 model fs name).truthy = false) :
    ∀ (l : List (String × FieldSettings)) (s : ScanSt), (name, fs) ∈ l →
      requiredMsg name ∈ (l.foldl (fun s p => scanField C none model s p.1 p.2) s).errs := by
  intro l
  induction l with
  | nil =>
    intro s h
    cases h
  | cons p rest ih =>
    intro s hmem
    rcases List.mem_cons.mp hmem with heq | htl
    · rw [List.foldl_cons]
      apply scanFold_errs_subset
      rw [← heq]
      simp [scanField, hp, hr, hb, ht]
    · exact ih _ htl

/-- C8 counterexample: the claim says any falsy non-boolean value
supplied for a required field on create fails validation.  With the
lowercase transform also set, the falsy number 0 is coerced to the
truthy string "0" before the required check, and validate succeeds. -/
theorem c8_counterexample_lowercase_zero :
    (Val.vint 0).truthy = false ∧ (Val.vint 0).isBool = false ∧
    validate (mkCtx [("flag", { required := true, lowercase := true })]) none
        [("flag", Val.vint 0)] Store.empty
      = Except.ok [("flag", Val.vstr "0")] :=
  ⟨rfl, rfl, rfl⟩

/-- C8 (amended): for every non-password field marked required, a
candidate whose value after the field transforms (defaultValue fallback
and lowercase, when set) is falsy and not boolean-typed makes
create-time validate fail with a message containing the field's name,
while on update (id present) the required check never fires: omitting
the field validates successfully. -/
theorem c8_required_create_only (C : Ctx) (model : Doc) (st : Store)
    (name : String) (fs : FieldSettings)
    (hmem : (name, fs) ∈ C.fields) (hp : fs.password = false)
    (hr : fs.required = true)
    (hb : (fieldVal1 model fs name).isBool = false)
    (ht : (fieldVal1 model fs name).truthy = false) :
    (∃ msgs, validate C none model st = Except.error msgs ∧ requiredMsg name ∈ msgs) ∧
    (∀ (nm i : String) (st2 : Store),
        validate (cReq nm) (some i) [] st2 = Except.ok [(nm, Val.vnull)]) := by
  constructor
  · have hm : requiredMsg name ∈ (scanFields C none model).errs :=
      requiredMsg_mem_scan C model name fs hp hr hb ht C.fields {} hmem
    refine ⟨(scanFields C none model).errs, ?_, hm⟩
    have hne : (scanFields C none model).errs ≠ [] := List.ne_nil_of_mem hm
    simp [validate, hne]
  · intro nm i st2
    simp [validate, scanFields, cReq_fields, scanField, fieldVal1, fieldVal0,
          alGet, alSet, uniqueConflicts]

/-- C8 witness: omitting the required field flag on create fails with
the message naming it; omitting it on update validates. -/
theorem c8_required_create_only_witness :
    (∃ msgs, validate (cReq "flag") none [] Store.empty = Except.error msgs ∧
        requiredMsg "flag" ∈ msgs) ∧
    validate (cReq "flag") (some "x") [] Store.empty
      = Except.ok [("flag", Val.vnull)] := by
  constructor
  · exact (c8_required_create_only (cReq "flag") [] Store.empty "flag"
      { required := true } (by simp [cReq_fields]) rfl rfl rfl rfl).1
  · exact (c8_required_create_only (cReq "flag") [] Store.empty "flag"
      { required := true } (by simp [cReq_fields]) rfl rfl rfl rfl).2
      "flag" "x" Store.empty

end GraphQLRedis
